import Mathlib

/-!
Verification development for the segmentation-and-transcription pipeline of
`start.py` (single-file Streamlit app: URL → audio download → language
detection → splitting → per-segment transcription → aggregated text).

The Python source is shallowly embedded: pure helpers (`safe_filename`,
`run_cmd_capture`, `get_duration_seconds`) become Lean functions; the effectful
stages (`process_url_to_text`, lines 150-360) become functions over explicit
oracles for the external collaborators (subprocess spawning, the filesystem
glob results, the speech-recognition capability, the `langdetect` capability).
Python strings are modelled as `String` and, where character-level reasoning
is needed, through their underlying `List Char`.
-/

namespace VS

/-! ### Character-level helpers for Python string operations -/

/-- Whitespace characters stripped by Python's `str.strip()` with no argument
(restricted to the ASCII whitespace set; after `safe_filename`'s substitution
step only `' '` can survive anyway, so this set is exhaustive there). -/
def isPySpace (c : Char) : Bool :=
  c = ' ' || c = '\t' || c = '\n' || c = '\r' || c = '\x0b' || c = '\x0c'

/-- Python `str.strip()` on the character list of a string: drop leading and
trailing whitespace. -/
def pyStripList (cs : List Char) : List Char :=
  (((cs.dropWhile isPySpace).reverse.dropWhile isPySpace)).reverse

/-- Python `str.strip()` lifted to `String`. -/
def pyStrip (s : String) : String :=
  ⟨pyStripList s.data⟩

/-- Non-ASCII characters that Python's Unicode-aware `\w` matches, restricted
to the Latin-1 Supplement / Latin Extended letters (the fragment relevant to
the inputs considered here; `×` `0xD7` and `÷` `0xF7` are excluded as they are
not letters). Other Unicode word characters behave the same way in the source,
so this fragment is representative. -/
def isLatinExtLetter (c : Char) : Bool :=
  decide (0xC0 ≤ c.toNat) && decide (c.toNat ≤ 0x24F) &&
    decide (c.toNat ≠ 0xD7) && decide (c.toNat ≠ 0xF7)

/-- Python's regex class `\w` (with the default Unicode semantics of `re` on
`str`): ASCII alphanumerics, underscore, and non-ASCII word characters. -/
def isPyWordChar (c : Char) : Bool :=
  c.isAlphanum || c = '_' || isLatinExtLetter c

/-- Characters kept (not replaced by `_`) by `re.sub(r"[^\w\-_\. ]", "_", s)`
in `safe_filename` (start.py line 92): word characters, `-`, `_`, `.`, space. -/
def keepChar (c : Char) : Bool :=
  isPyWordChar c || c = '-' || c = '_' || c = '.' || c = ' '

/-- One character of the `re.sub` substitution step of `safe_filename`. -/
def substChar (c : Char) : Char :=
  if keepChar c then c else '_'

/-- One character of the `.replace(" ", "_")` step of `safe_filename`. -/
def spaceRepl (c : Char) : Char :=
  if c = ' ' then '_' else c

/-- Character-list form of `safe_filename` (start.py lines 91-93):
`re.sub(r"[^\w\-_\. ]", "_", s).strip().replace(" ", "_")`. -/
def safeFilenameChars (cs : List Char) : List Char :=
  (pyStripList (cs.map substChar)).map spaceRepl

/-- `safe_filename` (start.py lines 91-93): replace every character outside
`[\w\-_\. ]` by `_`, strip surrounding whitespace, then turn spaces into `_`. -/
def safe_filename (s : String) : String :=
  ⟨safeFilenameChars s.data⟩

/-- Index of the character after the last `.` when scanning from the right:
the length of the maximal dot-free suffix. -/
def afterLastDotLen (cs : List Char) : Nat :=
  (cs.reverse.takeWhile (fun c => c ≠ '.')).length

/-- Character-list form of `pathlib.PurePath.stem` restricted to a bare file
name (start.py line 211 `src_wav.stem`): CPython computes
`i = name.rfind('.')` and returns `name[:i]` when `0 < i < len(name) - 1`,
otherwise the whole name. -/
def pyStemChars (cs : List Char) : List Char :=
  let aft := afterLastDotLen cs
  if aft = cs.length then cs
  else
    let i := cs.length - aft - 1
    if 0 < i ∧ i < cs.length - 1 then cs.take i else cs

/-- `pathlib.PurePath.stem` of a bare file name, lifted to `String`. -/
def pyStem (s : String) : String :=
  ⟨pyStemChars s.data⟩

/-! ### Lexicographic string order and Python's `sorted()`

Python's `sorted()` on `str` compares strings lexicographically by code
points. `String`'s built-in order does not reduce well in the kernel, so the
same order is defined here explicitly over character lists. -/

/-- Lexicographic (code-point) `≤` on character lists, as Python compares
strings. -/
def strLeb : List Char → List Char → Bool
  | [], _ => true
  | _ :: _, [] => false
  | c :: cs, d :: ds =>
    if c.toNat < d.toNat then true
    else if d.toNat < c.toNat then false
    else strLeb cs ds

/-- Insert a string into a list sorted by `strLeb`. -/
def insertSorted (s : String) : List String → List String
  | [] => [s]
  | t :: ts => if strLeb s.data t.data then s :: t :: ts else t :: insertSorted s ts

/-- Python's `sorted()` on a list of strings (insertion sort; `sorted` is
stable, and any correct sort yields the same list of strings). Models
`sorted(tmp_dir.glob("*.wav"))` (line 204) and
`sorted(split_dir.glob("*.wav"))` (line 273). -/
def sortStrings : List String → List String
  | [] => []
  | s :: ss => insertSorted s (sortStrings ss)

/-! ### Process runner and media prober -/

/-- Behaviour of one `subprocess.run` invocation, as an oracle value: either
the process completed (with return code and captured streams, which Python may
report as `None`, modelled by `Option`), or spawning raised an exception with
a message. -/
inductive SpawnResult where
  | completed (returncode : Int) (stdout stderr : Option String)
  | raised (msg : String)
  deriving DecidableEq

/-- `run_cmd_capture` (start.py lines 95-101): run the command, returning
`(rc, stdout or "", stderr or "")`; any raised exception is caught and
reported as `(1, "", str(e))`. The subprocess itself is an oracle `spawn`. -/
def run_cmd_capture (spawn : List String → SpawnResult) (cmd : List String) :
    Int × String × String :=
  match spawn cmd with
  | SpawnResult.completed rc out err => (rc, out.getD "", err.getD "")
  | SpawnResult.raised msg => (1, "", msg)

/-- The concrete `ffprobe` command built by `get_duration_seconds`
(start.py line 127). -/
def ffprobeCmd (file_path : String) : List String :=
  ["ffprobe", "-v", "error", "-show_entries", "format=duration",
   "-of", "default=noprint_wrappers=1:nokey=1", file_path]

/-- `get_duration_seconds` (start.py lines 123-133): `0.0` when `ffprobe` is
absent; otherwise run it via `run_cmd_capture`; on exit code `0` parse
`float(out.strip())`, returning `0.0` when parsing fails; `0.0` on non-zero
exit. Python's `float()` parser is the oracle `parseFloat` (`none` models the
`ValueError` caught by the `except`); durations are modelled as rationals. -/
def get_duration_seconds (binFFprobe : Bool) (spawn : List String → SpawnResult)
    (parseFloat : String → Option ℚ) (file_path : String) : ℚ :=
  if !binFFprobe then 0
  else
    let r := run_cmd_capture spawn (ffprobeCmd file_path)
    if r.1 = 0 then
      match parseFloat (pyStrip r.2.1) with
      | some v => v
      | none => 0
    else 0

/-! ### Audio acquisition -/

/-- The `yt-dlp` command list built at start.py lines 179-191, with the cookie
flags inserted exactly when a cookie file path is non-empty and the URL
appended last. `tmpTemplate` stands for `str(tmp_dir / "%(title).100s-%(id)s.%(ext)s")`. -/
def ytDlpCmd (cookieFile url tmpTemplate : String) : List String :=
  (["yt-dlp", "--extract-audio", "--audio-format", "wav", "--no-playlist",
    "-o", tmpTemplate, "--no-warnings", "--embed-metadata"] ++
    (if cookieFile ≠ "" then ["--cookies", cookieFile] else [])) ++ [url]

/-- Result of the acquisition stage: a fatal error aborting the run, or the
selected source file, the sanitized title base for the persistent artifacts,
and the files remaining in the download directory after the destructive
`shutil.move` (start.py line 217). -/
inductive AcquireResult where
  | fatal (msg : String)
  | acquired (srcWav : String) (titleBase : String) (tmpRemaining : List String)
  deriving DecidableEq

/-- The audio-acquisition stage (start.py lines 156-157 and 193-218): fail if
`yt-dlp` is absent; run it, failing on a non-zero exit; glob and sort the
`.wav` files in the download directory (`tmpWavs` is the oracle for the glob
result), failing if none exists; otherwise select the first by name order,
derive the title base `safe_filename(src.stem)` with the optional sanitized
prefix, and move the file out of the download directory (so `tmpRemaining` is
the sorted tail). -/
def acquireAudio (binYtDlp : Bool) (spawn : List String → SpawnResult)
    (ytCmd : List String) (tmpWavs : List String) (pfx : String) : AcquireResult :=
  if !binYtDlp then AcquireResult.fatal "yt-dlp is not installed"
  else
    let r := run_cmd_capture spawn ytCmd
    if r.1 ≠ 0 then AcquireResult.fatal ("yt-dlp failed: " ++ r.2.2)
    else
      match sortStrings tmpWavs with
      | [] => AcquireResult.fatal "no wav file found after yt-dlp"
      | srcWav :: rest =>
        let base0 := safe_filename (pyStem srcWav)
        let base := if pfx ≠ "" then safe_filename pfx ++ "_" ++ base0 else base0
        AcquireResult.acquired srcWav base rest

/-! ### Language detection -/

/-- The `sample_text` produced by the two sampling attempts (start.py lines
230-237): first `recognize_google(sample_audio)` with no language hint, on
failure `recognize_google(sample_audio, language="ar")`, on failure `""`.
`recogSample` is the oracle for the recognition capability on the recorded
sample (`none` hint = no `language` argument; result `none` = exception). -/
def sampleTextOf (recogSample : Option String → Option String) : String :=
  match recogSample none with
  | some t => t
  | none =>
    match recogSample (some "ar") with
    | some t => t
    | none => ""

/-- The language-detection block (start.py lines 222-254). `loadSample` is
whether `sr.AudioFile` + `record` succeed; `identify` is the `langdetect`
capability (`none` = exception). Returns the detected language together with
whether the identification capability was invoked. Every failure path yields
the fallback `"en"` (the initial value of `detected_lang`, reassigned on each
handler). The text is gated by `if sample_text.strip():` (line 238). -/
def detectLanguage (loadSample : Bool) (recogSample : Option String → Option String)
    (identify : String → Option String) : String × Bool :=
  if loadSample then
    let sample_text := sampleTextOf recogSample
    if pyStrip sample_text ≠ "" then
      match identify sample_text with
      | some code => (code, true)
      | none => ("en", true)
    else ("en", false)
  else ("en", false)

/-! ### Transcription loop -/

/-- A segment file produced by the splitting stage, identified by its file
name (`part.name` in the source). -/
structure Segment where
  name : String
  deriving DecidableEq

/-- Per-segment transcription outcome: success carrying the recognized text,
or failure carrying the segment's file name (start.py lines 312 and 318). -/
inductive Outcome where
  | success (text : String)
  | failure (name : String)
  deriving DecidableEq

/-- One entry of the observable trace of the transcription loop: a recorded
per-segment outcome, or one invocation of the progress update (start.py lines
322-324) with the processed count and the total count. -/
inductive TraceEntry where
  | outcome (o : Outcome)
  | progress (processed total : Nat)
  deriving DecidableEq

/-- Transcription of one segment (start.py lines 293-320): open and record the
audio (`loadPart`, `false` = exception, caught by the outer handler), then try
`recognize_google` with the detected language, then with no hint, then with
hint `"ar"`, then with hint `"en"`; the first success is the outcome's text;
if all four attempts fail, `e_final` is re-raised into the outer handler,
which records the segment's name as a failure. `recog` is the oracle for the
recognition capability on this segment's audio. -/
def transcribeSegment (loadPart : Segment → Bool)
    (recog : Segment → Option String → Option String)
    (lang : String) (part : Segment) : Outcome :=
  if loadPart part then
    match recog part (some lang) with
    | some t => Outcome.success t
    | none =>
      match recog part none with
      | some t => Outcome.success t
      | none =>
        match recog part (some "ar") with
        | some t => Outcome.success t
        | none =>
          match recog part (some "en") with
          | some t => Outcome.success t
          | none => Outcome.failure part.name
  else Outcome.failure part.name

/-- The ordered list of language hints of the fallback chain, as the spec
states it: the detected language, then no hint, then `"ar"`, then `"en"`. -/
def hintChain (lang : String) : List (Option String) :=
  [some lang, none, some "ar", some "en"]

/-- First successful result among an ordered list of attempt results. -/
def firstSome : List (Option String) → Option String
  | [] => none
  | some t :: _ => some t
  | none :: rest => firstSome rest

/-- Specification-side per-segment transcription: the first success of the
ordered fallback chain `hintChain lang`; a failure outcome carrying the
segment's name when the whole chain fails (or the audio cannot be read). -/
def transcribeSegmentSpec (loadPart : Segment → Bool)
    (recog : Segment → Option String → Option String)
    (lang : String) (part : Segment) : Outcome :=
  if loadPart part then
    match firstSome ((hintChain lang).map (recog part)) with
    | some t => Outcome.success t
    | none => Outcome.failure part.name
  else Outcome.failure part.name

/-- The transcription loop (start.py lines 287-325): for each remaining
segment, record its outcome, then invoke the progress update with the
incremented processed count and the total, then continue with the next
segment. The trace records these actions in program order. -/
def transcribeLoop (loadPart : Segment → Bool)
    (recog : Segment → Option String → Option String)
    (lang : String) (total : Nat) : List Segment → Nat → List TraceEntry
  | [], _ => []
  | part :: rest, processed =>
    TraceEntry.outcome (transcribeSegment loadPart recog lang part) ::
      TraceEntry.progress (processed + 1) total ::
      transcribeLoop loadPart recog lang total rest (processed + 1)

/-- `transcribeAll`: the full transcription loop over a segment list, with
`total_parts = len(split_files)` (start.py line 274) and the processed counter
starting at `0` (line 285). -/
def transcribeAll (loadPart : Segment → Bool)
    (recog : Segment → Option String → Option String)
    (lang : String) (segs : List Segment) : List TraceEntry :=
  transcribeLoop loadPart recog lang segs.length segs 0

/-- The per-segment outcomes recorded in a trace, in order. -/
def outcomesOf (tr : List TraceEntry) : List Outcome :=
  tr.filterMap fun e =>
    match e with
    | TraceEntry.outcome o => some o
    | TraceEntry.progress _ _ => none

/-- The progress invocations recorded in a trace, in order, as
`(processed, total)` pairs. -/
def progressOf (tr : List TraceEntry) : List (Nat × Nat) :=
  tr.filterMap fun e =>
    match e with
    | TraceEntry.outcome _ => none
    | TraceEntry.progress i t => some (i, t)

/-! ### Aggregation -/

/-- `text_lines` as accumulated by the loop (start.py line 312): the texts of
the successful outcomes, in segment order. -/
def successTexts : List Outcome → List String
  | [] => []
  | Outcome.success t :: rest => t :: successTexts rest
  | Outcome.failure _ :: rest => successTexts rest

/-- `failed_parts` as accumulated by the loop (start.py line 318): the names
carried by the failure outcomes, in segment order. -/
def failedNames : List Outcome → List String
  | [] => []
  | Outcome.success _ :: rest => failedNames rest
  | Outcome.failure nm :: rest => nm :: failedNames rest

/-- The final text artifact's content (start.py lines 329-331): for each line
of `text_lines`, in order, write `line + "\n\n"`. -/
def finalTextOf (textLines : List String) : String :=
  textLines.foldl (fun acc t => acc ++ (t ++ "\n\n")) ""

/-- Specification-side aggregation: each successful text becomes one
paragraph followed by a blank-line separator, concatenated in order. -/
def joinParagraphs : List String → String
  | [] => ""
  | t :: ts => (t ++ "\n\n") ++ joinParagraphs ts

/-! ### The whole pipeline -/

/-- The `ffmpeg` splitting command (start.py lines 259-265); `splitTemplate`
stands for `str(split_dir / "part_%03d.wav")`. -/
def ffmpegSplitCmd (dstWav : String) (segmentSeconds : Nat) (splitTemplate : String) :
    List String :=
  ["ffmpeg", "-y", "-i", dstWav, "-f", "segment",
   "-segment_time", toString segmentSeconds, "-c", "copy", splitTemplate]

/-- The artifact set of a completed (non-aborted) run. -/
structure RunResult where
  titleBase : String
  detectedLang : String
  textBody : String
  failedParts : List String
  trace : List TraceEntry
  deriving DecidableEq

/-- `process_url_to_text` (start.py lines 150-360) over oracles for every
external collaborator: `spawn` for subprocesses, `tmpWavs` / `splitWavNames`
for the two directory globs, `loadSample` / `recogSample` / `identify` for the
language-detection block, `loadPart` / `recog` for per-segment recognition.
An `Except.error` models the early `st.error(...); return` aborts; an
`Except.ok` models a run that reaches the artifact-writing stage (which never
fails afterwards). -/
def process_url_to_text (url cookieFile pfx : String)
    (binYtDlp binFfmpeg libsOk : Bool)
    (spawn : List String → SpawnResult)
    (tmpTemplate splitTemplate : String)
    (tmpWavs splitWavNames : List String)
    (loadSample : Bool) (recogSample : Option String → Option String)
    (identify : String → Option String)
    (loadPart : Segment → Bool)
    (recog : Segment → Option String → Option String)
    (segmentSeconds : Nat) : Except String RunResult :=
  if url = "" then Except.error "no url"
  else if !binYtDlp then Except.error "yt-dlp is not installed"
  else if !binFfmpeg then Except.error "ffmpeg is not installed"
  else if !libsOk then Except.error "python library missing"
  else
    match acquireAudio binYtDlp spawn (ytDlpCmd cookieFile url tmpTemplate) tmpWavs pfx with
    | AcquireResult.fatal msg => Except.error msg
    | AcquireResult.acquired _srcWav titleBase _rest =>
      let dstWav := titleBase ++ ".wav"
      let lang := (detectLanguage loadSample recogSample identify).1
      let r2 := run_cmd_capture spawn (ffmpegSplitCmd dstWav segmentSeconds splitTemplate)
      if r2.1 ≠ 0 then Except.error "ffmpeg split failed"
      else
        let parts := (sortStrings splitWavNames).map Segment.mk
        let trace := transcribeAll loadPart recog lang parts
        Except.ok
          { titleBase := titleBase
            detectedLang := lang
            textBody := finalTextOf (successTexts (outcomesOf trace))
            failedParts := failedNames (outcomesOf trace)
            trace := trace }

/-! ### Lemmas about the lexicographic order and `sortStrings` -/

theorem strLeb_refl (a : List Char) : strLeb a a = true := by
  induction a with
  | nil => rfl
  | cons c cs ih => simp [strLeb, ih]

theorem strLeb_total (a b : List Char) : strLeb a b = true ∨ strLeb b a = true := by
  induction a generalizing b with
  | nil => left; rfl
  | cons c cs ih =>
    cases b with
    | nil => right; rfl
    | cons d ds =>
      rcases Nat.lt_trichotomy c.toNat d.toNat with h | h | h
      · left; simp [strLeb, h]
      · have h1 : ¬ c.toNat < d.toNat := by omega
        have h2 : ¬ d.toNat < c.toNat := by omega
        rcases ih ds with ht | ht
        · left; simp [strLeb, h1, h2, ht]
        · right; simp [strLeb, h1, h2, ht]
      · right; simp [strLeb, h]

theorem strLeb_trans {a b c : List Char} (hab : strLeb a b = true)
    (hbc : strLeb b c = true) : strLeb a c = true := by
  induction a generalizing b c with
  | nil => rfl
  | cons x xs ih =>
    cases b with
    | nil => simp [strLeb] at hab
    | cons y ys =>
      cases c with
      | nil => simp [strLeb] at hbc
      | cons z zs =>
        rcases Nat.lt_trichotomy x.toNat y.toNat with h1 | h1 | h1 <;>
          rcases Nat.lt_trichotomy y.toNat z.toNat with h2 | h2 | h2
        · simp [strLeb, Nat.lt_trans h1 h2]
        · simp [strLeb, show x.toNat < z.toNat by omega]
        · simp [strLeb, show ¬ y.toNat < z.toNat by omega, h2] at hbc
        · simp [strLeb, show x.toNat < z.toNat by omega]
        · have hxz1 : ¬ x.toNat < z.toNat := by omega
          have hxz2 : ¬ z.toNat < x.toNat := by omega
          simp [strLeb, show ¬ x.toNat < y.toNat by omega,
            show ¬ y.toNat < x.toNat by omega] at hab
          simp [strLeb, show ¬ y.toNat < z.toNat by omega,
            show ¬ z.toNat < y.toNat by omega] at hbc
          simp [strLeb, hxz1, hxz2]
          exact ih hab hbc
        · simp [strLeb, show ¬ y.toNat < z.toNat by omega, h2] at hbc
        · simp [strLeb, show ¬ x.toNat < y.toNat by omega, h1] at hab
        · simp [strLeb, show ¬ x.toNat < y.toNat by omega, h1] at hab
        · simp [strLeb, show ¬ x.toNat < y.toNat by omega, h1] at hab

theorem insertSorted_perm (s : String) (l : List String) :
    (insertSorted s l).Perm (s :: l) := by
  induction l with
  | nil => exact List.Perm.refl _
  | cons t ts ih =>
    unfold insertSorted
    split
    · exact List.Perm.refl _
    · exact (ih.cons t).trans (List.Perm.swap s t ts)

theorem sortStrings_perm (l : List String) : (sortStrings l).Perm l := by
  induction l with
  | nil => exact List.Perm.refl _
  | cons s ss ih =>
    exact (insertSorted_perm s (sortStrings ss)).trans (ih.cons s)

theorem sortStrings_eq_nil_iff (l : List String) : sortStrings l = [] ↔ l = [] := by
  constructor
  · intro h
    have := (sortStrings_perm l).length_eq
    rw [h] at this
    exact List.eq_nil_of_length_eq_zero this.symm
  · intro h; subst h; rfl

theorem mem_insertSorted {x s : String} {l : List String} :
    x ∈ insertSorted s l ↔ x = s ∨ x ∈ l := by
  rw [(insertSorted_perm s l).mem_iff, List.mem_cons]

theorem pairwise_insertSorted (s : String) (l : List String)
    (hl : l.Pairwise (fun a b => strLeb a.data b.data = true)) :
    (insertSorted s l).Pairwise (fun a b => strLeb a.data b.data = true) := by
  induction l with
  | nil => simp [insertSorted]
  | cons t ts ih =>
    rcases List.pairwise_cons.mp hl with ⟨hts, hp⟩
    by_cases hst : strLeb s.data t.data = true
    · simp only [insertSorted, hst, if_true]
      refine List.pairwise_cons.mpr ⟨?_, hl⟩
      intro x hx
      rcases List.mem_cons.mp hx with rfl | hx'
      · exact hst
      · exact strLeb_trans hst (hts x hx')
    · simp only [insertSorted, hst, if_false]
      refine List.pairwise_cons.mpr ⟨?_, ih hp⟩
      intro x hx
      rcases mem_insertSorted.mp hx with rfl | hx'
      · rcases strLeb_total t.data x.data with h | h
        · exact h
        · exact absurd h hst
      · exact hts x hx'

theorem sortStrings_pairwise (l : List String) :
    (sortStrings l).Pairwise (fun a b => strLeb a.data b.data = true) := by
  induction l with
  | nil => simp [sortStrings]
  | cons s ss ih => exact pairwise_insertSorted s (sortStrings ss) ih

theorem sortStrings_head_le {l : List String} {h0 : String} {t : List String}
    (hs : sortStrings l = h0 :: t) : ∀ x ∈ l, strLeb h0.data x.data = true := by
  intro x hx
  have hperm := sortStrings_perm l
  rw [hs] at hperm
  rcases List.mem_cons.mp (hperm.mem_iff.mpr hx) with rfl | hx'
  · exact strLeb_refl _
  · have hp := sortStrings_pairwise l
    rw [hs] at hp
    exact (List.pairwise_cons.mp hp).1 x hx'

theorem sortStrings_head_not_mem_tail {l : List String} {h0 : String} {t : List String}
    (hs : sortStrings l = h0 :: t) (hnd : l.Nodup) : h0 ∉ t := by
  have : (sortStrings l).Nodup := (sortStrings_perm l).nodup_iff.mpr hnd
  rw [hs] at this
  exact (List.nodup_cons.mp this).1

/-! ### Lemmas about `safe_filename` -/

theorem substChar_keep (c : Char) : keepChar (substChar c) = true := by
  unfold substChar
  split
  · assumption
  · decide

theorem mem_pyStripList {c : Char} {l : List Char} (h : c ∈ pyStripList l) : c ∈ l := by
  unfold pyStripList at h
  have h1 := List.mem_reverse.mp h
  have h2 := (List.dropWhile_sublist (p := isPySpace)).subset h1
  have h3 := List.mem_reverse.mp h2
  exact (List.dropWhile_sublist (p := isPySpace)).subset h3

theorem mem_safeFilenameChars {c : Char} {cs : List Char} (h : c ∈ safeFilenameChars cs) :
    (c ∈ cs ∨ c = '_') ∧ keepChar c = true ∧ c ≠ ' ' := by
  unfold safeFilenameChars at h
  rcases List.mem_map.mp h with ⟨d, hd, hcd⟩
  rcases List.mem_map.mp (mem_pyStripList hd) with ⟨e, he, hde⟩
  by_cases hke : keepChar e = true
  · have hd' : d = e := by rw [← hde]; simp [substChar, hke]
    subst hd'
    by_cases hes : d = ' '
    · have hc : c = '_' := by rw [← hcd, hes]; rfl
      subst hc
      exact ⟨Or.inr rfl, by decide, by decide⟩
    · have hc : c = d := by rw [← hcd]; simp [spaceRepl, hes]
      subst hc
      exact ⟨Or.inl he, hke, hes⟩
  · have hd' : d = '_' := by rw [← hde]; simp [substChar, hke]
    have hc : c = '_' := by rw [← hcd, hd']; rfl
    subst hc
    exact ⟨Or.inr rfl, by decide, by decide⟩

theorem keep_not_space {c : Char} (hk : keepChar c = true) (hne : c ≠ ' ') :
    isPySpace c = false := by
  by_contra hcon
  have hsp : isPySpace c = true := by
    cases h : isPySpace c
    · exact absurd h hcon
    · rfl
  simp only [isPySpace, Bool.or_eq_true, decide_eq_true_eq] at hsp
  rcases hsp with ((((h | h) | h) | h) | h) | h <;> subst h
  · exact hne rfl
  · exact absurd hk (by decide)
  · exact absurd hk (by decide)
  · exact absurd hk (by decide)
  · exact absurd hk (by decide)
  · exact absurd hk (by decide)

theorem dropWhile_eq_self_of_no {p : Char → Bool} {l : List Char}
    (h : ∀ c ∈ l, p c = false) : l.dropWhile p = l := by
  cases l with
  | nil => rfl
  | cons a as =>
    rw [List.dropWhile_cons, h a (List.mem_cons_self a as)]
    simp

theorem pyStripList_eq_self {l : List Char} (h : ∀ c ∈ l, isPySpace c = false) :
    pyStripList l = l := by
  unfold pyStripList
  rw [dropWhile_eq_self_of_no h,
    dropWhile_eq_self_of_no (fun c hc => h c (List.mem_reverse.mp hc)),
    List.reverse_reverse]

theorem map_eq_self_of_fixed {f : Char → Char} {l : List Char}
    (h : ∀ c ∈ l, f c = c) : l.map f = l := by
  have : l.map f = l.map id := List.map_congr_left h
  rw [this, List.map_id]

theorem safeFilenameChars_idem (cs : List Char) :
    safeFilenameChars (safeFilenameChars cs) = safeFilenameChars cs := by
  conv_lhs => rw [safeFilenameChars]
  rw [map_eq_self_of_fixed (f := substChar)
      (fun c hc => by simp [substChar, (mem_safeFilenameChars hc).2.1]),
    pyStripList_eq_self
      (fun c hc => keep_not_space (mem_safeFilenameChars hc).2.1 (mem_safeFilenameChars hc).2.2),
    map_eq_self_of_fixed (f := spaceRepl)
      (fun c hc => by simp [spaceRepl, (mem_safeFilenameChars hc).2.2])]

theorem safe_filename_idem (s : String) :
    safe_filename (safe_filename s) = safe_filename s := by
  unfold safe_filename
  exact String.ext (safeFilenameChars_idem s.data)

theorem safeFilenameChars_ascii {cs : List Char} (ha : ∀ c ∈ cs, c.toNat < 128) :
    ∀ c ∈ safeFilenameChars cs, (c.isAlphanum = true ∨ c = '_' ∨ c = '.' ∨ c = '-') := by
  intro c hc
  obtain ⟨hmem, hk, hsp⟩ := mem_safeFilenameChars hc
  rcases hmem with hin | h_
  · have hascii := ha c hin
    simp only [keepChar, isPyWordChar, isLatinExtLetter, Bool.or_eq_true, Bool.and_eq_true,
      decide_eq_true_eq] at hk
    rcases hk with (((((h | h) | ⟨⟨⟨h1, _⟩, _⟩, _⟩) | h) | h) | h) | h
    · exact Or.inl h
    · exact Or.inr (Or.inl h)
    · omega
    · exact Or.inr (Or.inr (Or.inr h))
    · exact Or.inr (Or.inl h)
    · exact Or.inr (Or.inr (Or.inl h))
    · exact absurd h hsp
  · exact Or.inr (Or.inl h_)

/-! ### Lemmas about the transcription loop -/

theorem transcribeSegment_eq_spec (loadPart : Segment → Bool)
    (recog : Segment → Option String → Option String) (lang : String) (part : Segment) :
    transcribeSegment loadPart recog lang part =
      transcribeSegmentSpec loadPart recog lang part := by
  unfold transcribeSegment transcribeSegmentSpec hintChain
  cases hl : loadPart part
  · rfl
  · simp only [if_true]
    cases h1 : recog part (some lang) <;>
      cases h2 : recog part none <;>
      cases h3 : recog part (some "ar") <;>
      cases h4 : recog part (some "en") <;>
      simp [firstSome, h1, h2, h3, h4]

theorem transcribeSegment_shape (loadPart : Segment → Bool)
    (recog : Segment → Option String → Option String) (lang : String) (part : Segment)
    (hne : ∀ hint t, recog part hint = some t → t ≠ "") :
    (∃ t, transcribeSegment loadPart recog lang part = Outcome.success t ∧ t ≠ "") ∨
      transcribeSegment loadPart recog lang part = Outcome.failure part.name := by
  unfold transcribeSegment
  cases hl : loadPart part
  · right; rfl
  · simp only [if_true]
    cases h1 : recog part (some lang)
    · cases h2 : recog part none
      · cases h3 : recog part (some "ar")
        · cases h4 : recog part (some "en")
          · right; rfl
          · exact Or.inl ⟨_, rfl, hne _ _ h4⟩
        · exact Or.inl ⟨_, rfl, hne _ _ h3⟩
      · exact Or.inl ⟨_, rfl, hne _ _ h2⟩
    · exact Or.inl ⟨_, rfl, hne _ _ h1⟩

theorem outcomesOf_transcribeLoop (loadPart : Segment → Bool)
    (recog : Segment → Option String → Option String) (lang : String) (total : Nat) :
    ∀ (segs : List Segment) (p : Nat),
      outcomesOf (transcribeLoop loadPart recog lang total segs p) =
        segs.map (transcribeSegment loadPart recog lang) := by
  intro segs
  induction segs with
  | nil => intro p; rfl
  | cons s ss ih =>
    intro p
    simp only [transcribeLoop, outcomesOf, List.filterMap_cons] at *
    simp [ih (p + 1)]

theorem progressOf_transcribeLoop (loadPart : Segment → Bool)
    (recog : Segment → Option String → Option String) (lang : String) (total : Nat) :
    ∀ (segs : List Segment) (p : Nat),
      progressOf (transcribeLoop loadPart recog lang total segs p) =
        (List.range segs.length).map (fun i => (p + i + 1, total)) := by
  intro segs
  induction segs with
  | nil => intro p; rfl
  | cons s ss ih =>
    intro p
    simp only [transcribeLoop, progressOf, List.filterMap_cons] at *
    rw [ih (p + 1)]
    simp only [List.length_cons, List.range_succ_eq_map, List.map_cons, List.map_map]
    refine List.cons_eq_cons.mpr ⟨by simp, ?_⟩
    apply List.map_congr_left
    intro a _
    simp only [Function.comp_apply]
    have harith : p + 1 + a + 1 = p + Nat.succ a + 1 := by omega
    rw [harith]

theorem transcribeLoop_eq_join (loadPart : Segment → Bool)
    (recog : Segment → Option String → Option String) (lang : String) (total : Nat) :
    ∀ (segs : List Segment) (p : Nat),
      transcribeLoop loadPart recog lang total segs p =
        ((((List.range segs.length).map (fun i => i + p)).zip segs).map (fun q =>
          [TraceEntry.outcome (transcribeSegment loadPart recog lang q.2),
           TraceEntry.progress (q.1 + 1) total])).flatten := by
  intro segs
  induction segs with
  | nil => intro p; rfl
  | cons s ss ih =>
    intro p
    simp only [transcribeLoop, List.length_cons, List.range_succ_eq_map, List.map_cons,
      List.map_map, List.zip_cons_cons, List.flatten]
    rw [ih (p + 1)]
    have harg : ((fun i => i + p) ∘ Nat.succ) = (fun i => i + (p + 1)) := by
      funext i
      simp [Nat.succ_eq_add_one]
      omega
    rw [harg]
    simp [List.flatten]

/-! ### Lemmas about aggregation -/

theorem finalTextOf_foldl (ls : List String) :
    ∀ acc : String, ls.foldl (fun a t => a ++ (t ++ "\n\n")) acc = acc ++ joinParagraphs ls := by
  induction ls with
  | nil => intro acc; simp [joinParagraphs]
  | cons t ts ih =>
    intro acc
    simp only [List.foldl_cons, joinParagraphs, ih (acc ++ (t ++ "\n\n"))]
    rw [String.append_assoc]

theorem finalTextOf_eq_joinParagraphs (ls : List String) :
    finalTextOf ls = joinParagraphs ls := by
  unfold finalTextOf
  rw [finalTextOf_foldl]
  simp

theorem successTexts_all_failed (names : List String) :
    successTexts (names.map Outcome.failure) = [] := by
  induction names with
  | nil => rfl
  | cons n ns ih => simp [successTexts, ih]

theorem failedNames_all_failed (names : List String) :
    failedNames (names.map Outcome.failure) = names := by
  induction names with
  | nil => rfl
  | cons n ns ih => simp [failedNames, ih]

/-! ### Claim theorems -/

/-- C1: for every non-empty list of segments, the transcription loop produces
exactly one outcome per input segment, in the same order as the input; each
segment's outcome is the first success of the fallback chain that attempts
recognition with the detected language hint, then with no hint, then with hint
`"ar"`, then with hint `"en"`, and when all four attempts fail the outcome
records that segment's name as a failure — the loop continues with the next
segment either way (the outcome list is a total `map` over the input). -/
theorem transcription_loop_one_outcome_per_segment (loadPart : Segment → Bool)
    (recog : Segment → Option String → Option String) (lang : String)
    (segs : List Segment) (hne : segs ≠ []) :
    (outcomesOf (transcribeAll loadPart recog lang segs)).length = segs.length ∧
    outcomesOf (transcribeAll loadPart recog lang segs) =
      segs.map (transcribeSegmentSpec loadPart recog lang) := by
  constructor
  · rw [transcribeAll, outcomesOf_transcribeLoop]
    exact List.length_map segs _
  · rw [transcribeAll, outcomesOf_transcribeLoop]
    exact List.map_congr_left (fun part _ => transcribeSegment_eq_spec loadPart recog lang part)

/-- Witness for C1 at a concrete one-segment input whose every attempt fails:
the loop still yields exactly one (failure) outcome. -/
theorem transcription_loop_one_outcome_per_segment_witness :
    (outcomesOf (transcribeAll (fun _ => true) (fun _ _ => none) "fr"
        [Segment.mk "part_000.wav"])).length = 1 ∧
    outcomesOf (transcribeAll (fun _ => true) (fun _ _ => none) "fr"
        [Segment.mk "part_000.wav"]) =
      [Segment.mk "part_000.wav"].map
        (transcribeSegmentSpec (fun _ => true) (fun _ _ => none) "fr") := by
  have h := transcription_loop_one_outcome_per_segment (fun _ => true) (fun _ _ => none)
    "fr" [Segment.mk "part_000.wav"] (by simp)
  exact ⟨h.1, h.2⟩

/-- C2: language detection never fails outward — if the identification
capability fails on every text, the result is still the fallback `"en"`; if
reading the sample fails, the result is `("en", not-invoked)`; and if both
sampling attempts yield empty or whitespace-only text, the result is `"en"`
and the identification capability is not invoked at all. -/
theorem detect_language_never_fails_outward (loadSample : Bool)
    (recogSample : Option String → Option String) (identify : String → Option String) :
    ((∀ s, identify s = none) → (detectLanguage loadSample recogSample identify).1 = "en") ∧
    (loadSample = false → detectLanguage loadSample recogSample identify = ("en", false)) ∧
    (pyStrip (sampleTextOf recogSample) = "" →
      detectLanguage loadSample recogSample identify = ("en", false)) := by
  refine ⟨?_, ?_, ?_⟩
  · intro hid
    unfold detectLanguage
    cases loadSample
    · rfl
    · simp only [if_true]
      split
      · rw [hid]
      · rfl
  · intro h
    subst h
    rfl
  · intro h
    unfold detectLanguage
    cases loadSample
    · rfl
    · simp [h]

/-- Witness for C2: whitespace-only sample text yields `("en", false)`. -/
theorem detect_language_never_fails_outward_witness :
    detectLanguage true (fun _ => some "   ") (fun _ => some "zz") = ("en", false) :=
  (detect_language_never_fails_outward true (fun _ => some "   ")
    (fun _ => some "zz")).2.2 (by decide)

/-- C3 counterexample: the claim quantifies over every input string, but
Python's `\w` is Unicode-aware, so `safe_filename` keeps non-ASCII word
characters: `safe_filename "é" = "é"`, whose character `é` lies outside
`[A-Za-z0-9_.-]`. -/
theorem sanitize_charset_counterexample :
    safe_filename "é" = "é" ∧
    ¬ (∀ c ∈ (safe_filename "é").data,
        (c.isAlphanum = true ∨ c = '_' ∨ c = '.' ∨ c = '-')) := by
  constructor
  · decide
  · intro h
    have := h 'é' (by decide)
    revert this
    decide

/-- C3 (amended): for every input string all of whose characters are ASCII,
`safe_filename` returns a string containing no characters outside
`[A-Za-z0-9_.-]` (non-ASCII word characters are kept unchanged, so the
charset bound holds only for ASCII inputs); for every input the mapping is
deterministic, and it is idempotent:
`safe_filename (safe_filename s) = safe_filename s`. -/
theorem sanitize_ascii_charset_and_idempotent (s : String) :
    ((∀ c ∈ s.data, c.toNat < 128) →
      ∀ c ∈ (safe_filename s).data, (c.isAlphanum = true ∨ c = '_' ∨ c = '.' ∨ c = '-')) ∧
    (∀ t : String, s = t → safe_filename s = safe_filename t) ∧
    safe_filename (safe_filename s) = safe_filename s := by
  refine ⟨?_, ?_, safe_filename_idem s⟩
  · intro ha c hc
    exact safeFilenameChars_ascii ha c hc
  · intro t h
    rw [h]

/-- Witness for C3 (amended) at the spec's own example input. -/
theorem sanitize_ascii_charset_and_idempotent_witness :
    ('M'.isAlphanum = true ∨ 'M' = '_' ∨ 'M' = '.' ∨ 'M' = '-') ∧
    safe_filename (safe_filename "My Video! (2020).mp4") =
      safe_filename "My Video! (2020).mp4" := by
  have h := sanitize_ascii_charset_and_idempotent "My Video! (2020).mp4"
  exact ⟨h.1 (by decide) 'M' (by decide), h.2.2⟩

/-- C4: the process runner is total — its result type is a plain triple, so
it never raises; a completed process's exit code is returned as-is (non-zero
included, with `None` streams mapped to `""`), and a thrown spawn error is
reported as exit code `1` with empty stdout and the error message as
stderr. -/
theorem run_cmd_capture_total (spawn : List String → SpawnResult) (cmd : List String) :
    (∀ rc out err, spawn cmd = SpawnResult.completed rc out err →
      run_cmd_capture spawn cmd = (rc, out.getD "", err.getD "")) ∧
    (∀ msg, spawn cmd = SpawnResult.raised msg →
      run_cmd_capture spawn cmd = (1, "", msg)) := by
  constructor
  · intro rc out err h
    unfold run_cmd_capture
    rw [h]
  · intro msg h
    unfold run_cmd_capture
    rw [h]

/-- Witness for C4: a spawn failure (command not found) is reported as
`(1, "", message)`. -/
theorem run_cmd_capture_total_witness :
    run_cmd_capture (fun _ => SpawnResult.raised "No such file or directory") ["yt-dlp"] =
      (1, "", "No such file or directory") :=
  (run_cmd_capture_total (fun _ => SpawnResult.raised "No such file or directory")
    ["yt-dlp"]).2 "No such file or directory" rfl

/-- C5: the media prober returns `0.0` whenever the probing tool is absent,
exits with a non-zero code, or prints output that does not parse as a number;
totality of the embedding (a plain rational result) models that it never
raises toward the caller. -/
theorem duration_zero_on_all_failures (binFFprobe : Bool)
    (spawn : List String → SpawnResult) (parseFloat : String → Option ℚ)
    (file_path : String) :
    (binFFprobe = false →
      get_duration_seconds binFFprobe spawn parseFloat file_path = 0) ∧
    ((run_cmd_capture spawn (ffprobeCmd file_path)).1 ≠ 0 →
      get_duration_seconds binFFprobe spawn parseFloat file_path = 0) ∧
    (parseFloat (pyStrip (run_cmd_capture spawn (ffprobeCmd file_path)).2.1) = none →
      get_duration_seconds binFFprobe spawn parseFloat file_path = 0) := by
  refine ⟨?_, ?_, ?_⟩
  · intro h
    subst h
    rfl
  · intro h
    unfold get_duration_seconds
    cases binFFprobe
    · rfl
    · simp [h]
  · intro h
    unfold get_duration_seconds
    cases binFFprobe
    · rfl
    · split
      · rfl
      · dsimp only
        split
        · rw [h]
        · rfl

/-- Witness for C5: ffprobe present and exiting `0` but printing unparsable
output yields duration `0`. -/
theorem duration_zero_on_all_failures_witness :
    get_duration_seconds true (fun _ => SpawnResult.completed 0 (some "N/A") none)
      (fun _ => none) "audio.wav" = 0 :=
  (duration_zero_on_all_failures true (fun _ => SpawnResult.completed 0 (some "N/A") none)
    (fun _ => none) "audio.wav").2.2 rfl

/-- C6: the aggregator concatenates the text of every successful outcome, in
segment order, each followed by a blank-line separator, into one text body
(`finalTextOf` mirrors the write loop, `joinParagraphs` the specified
paragraph form); it is a total function, and an all-failed outcome list still
yields an empty text body together with the full failure list in segment
order. -/
theorem aggregator_concatenation_and_all_failed (os : List Outcome)
    (names : List String) :
    finalTextOf (successTexts os) = joinParagraphs (successTexts os) ∧
    finalTextOf (successTexts (names.map Outcome.failure)) = "" ∧
    failedNames (names.map Outcome.failure) = names := by
  refine ⟨finalTextOf_eq_joinParagraphs _, ?_, failedNames_all_failed names⟩
  rw [successTexts_all_failed]
  rfl

/-- C7: acquisition fails exactly when the download tool is absent, exits
non-zero, or no waveform file exists afterwards in the download directory; on
success the selected file is the first of the directory's files in name order
(a member that is `≤` every file), and the relocation is destructive (for a
duplicate-free directory the selected file is no longer among the remaining
ones); and whenever acquisition is fatal the whole pipeline aborts with an
error (before any segment is created). -/
theorem acquisition_failure_iff_and_selection (binYtDlp : Bool)
    (spawn : List String → SpawnResult) (ytCmd : List String)
    (tmpWavs : List String) (pfx : String) :
    ((∃ msg, acquireAudio binYtDlp spawn ytCmd tmpWavs pfx = AcquireResult.fatal msg) ↔
      (binYtDlp = false ∨ (run_cmd_capture spawn ytCmd).1 ≠ 0 ∨ tmpWavs = [])) ∧
    (∀ src base rest, acquireAudio binYtDlp spawn ytCmd tmpWavs pfx =
        AcquireResult.acquired src base rest →
      (src ∈ tmpWavs ∧ ∀ f ∈ tmpWavs, strLeb src.data f.data = true) ∧
      (tmpWavs.Nodup → src ∉ rest)) ∧
    (∀ url cookieFile tmpTemplate splitTemplate : String, ∀ binFfmpeg libsOk : Bool,
      ∀ splitWavNames : List String, ∀ loadSample : Bool,
      ∀ recogSample : Option String → Option String,
      ∀ identify : String → Option String,
      ∀ loadPart : Segment → Bool, ∀ recog : Segment → Option String → Option String,
      ∀ segmentSeconds : Nat,
      (∃ msg, acquireAudio binYtDlp spawn (ytDlpCmd cookieFile url tmpTemplate) tmpWavs pfx =
        AcquireResult.fatal msg) →
      ∃ msg2, process_url_to_text url cookieFile pfx binYtDlp binFfmpeg libsOk spawn
        tmpTemplate splitTemplate tmpWavs splitWavNames loadSample recogSample identify
        loadPart recog segmentSeconds = Except.error msg2) := by
  refine ⟨?_, ?_, ?_⟩
  · cases binYtDlp
    · simp [acquireAudio]
    · by_cases hrc : (run_cmd_capture spawn ytCmd).1 ≠ 0
      · constructor
        · intro _
          exact Or.inr (Or.inl hrc)
        · intro _
          exact ⟨"yt-dlp failed: " ++ (run_cmd_capture spawn ytCmd).2.2,
            by simp [acquireAudio, hrc]⟩
      · cases hs : sortStrings tmpWavs with
        | nil =>
          have hnil : tmpWavs = [] := (sortStrings_eq_nil_iff tmpWavs).mp hs
          constructor
          · intro _
            exact Or.inr (Or.inr hnil)
          · intro _
            exact ⟨"no wav file found after yt-dlp", by simp [acquireAudio, hrc, hs]⟩
        | cons s0 t0 =>
          constructor
          · rintro ⟨msg, hmsg⟩
            simp [acquireAudio, hrc, hs] at hmsg
          · rintro (h | h | h)
            · exact absurd h (by simp)
            · exact absurd h hrc
            · rw [h] at hs
              simp [sortStrings] at hs

  · intro src base rest hacq
    unfold acquireAudio at hacq
    cases binYtDlp
    · simp at hacq
    · simp only [Bool.not_true] at hacq
      rw [if_neg (by simp)] at hacq
      by_cases hrc : (run_cmd_capture spawn ytCmd).1 ≠ 0
      · rw [if_pos hrc] at hacq
        exact absurd hacq (by simp)
      · rw [if_neg hrc] at hacq
        cases hs : sortStrings tmpWavs with
        | nil =>
          rw [hs] at hacq
          exact absurd hacq (by simp)
        | cons s0 t0 =>
          rw [hs] at hacq
          have hsrc : s0 = src ∧ t0 = rest := by
            have := hacq
            simp at this
            exact ⟨this.1, this.2.2⟩
          obtain ⟨h1, h2⟩ := hsrc
          subst h1
          subst h2
          refine ⟨⟨?_, sortStrings_head_le hs⟩, sortStrings_head_not_mem_tail hs⟩
          have hmem : s0 ∈ sortStrings tmpWavs := by
            rw [hs]
            exact List.mem_cons_self s0 t0
          exact (sortStrings_perm tmpWavs).mem_iff.mp hmem
  · intro url cookieFile tmpTemplate splitTemplate binFfmpeg libsOk splitWavNames
      loadSample recogSample identify loadPart recog segmentSeconds hfatal
    rcases hfatal with ⟨m, hm⟩
    unfold process_url_to_text
    split
    · exact ⟨_, rfl⟩
    · split
      · exact ⟨_, rfl⟩
      · split
        · exact ⟨_, rfl⟩
        · split
          · exact ⟨_, rfl⟩
          · rw [hm]
            exact ⟨m, rfl⟩

/-- Witness for C7 at a concrete two-file download directory: `"a.wav"` is
selected (a member that precedes `"b.wav"` in name order) and is removed from
the remaining files. -/
theorem acquisition_failure_iff_and_selection_witness :
    ("a.wav" ∈ (["b.wav", "a.wav"] : List String)) ∧
    strLeb "a.wav".data "b.wav".data = true ∧
    "a.wav" ∉ (["b.wav"] : List String) := by
  have h := acquisition_failure_iff_and_selection true
    (fun _ => SpawnResult.completed 0 (some "") (some "")) ["yt-dlp"] ["b.wav", "a.wav"] ""
  have h2 := h.2.1 "a.wav" "a" ["b.wav"] (by decide)
  exact ⟨h2.1.1, h2.1.2 "b.wav" (by decide), h2.2 (by decide)⟩

/-- C8: the progress callback is invoked exactly `n` times, with the
processed count strictly increasing from `1` to `n` (and the total always
`n`); the second conjunct pins down the interleaving: the trace is, for each
segment in order, its outcome entry immediately followed by one progress
entry, before the next segment's entries. -/
theorem progress_invoked_exactly_n_increasing (loadPart : Segment → Bool)
    (recog : Segment → Option String → Option String) (lang : String)
    (segs : List Segment) :
    progressOf (transcribeAll loadPart recog lang segs) =
      (List.range segs.length).map (fun i => (i + 1, segs.length)) ∧
    transcribeAll loadPart recog lang segs =
      (((List.range segs.length).zip segs).map (fun q =>
        [TraceEntry.outcome (transcribeSegment loadPart recog lang q.2),
         TraceEntry.progress (q.1 + 1) segs.length])).flatten := by
  constructor
  · rw [transcribeAll, progressOf_transcribeLoop]
    apply List.map_congr_left
    intro a _
    simp
  · rw [transcribeAll, transcribeLoop_eq_join]
    have hz : (List.range segs.length).map (fun i => i + 0) = List.range segs.length := by
      simp
    rw [hz]

/-- C9 counterexample: the code records whatever text the recognizer returns,
with no emptiness check — with a recognizer that returns the empty string the
loop records a success outcome carrying empty text, so the claimed invariant
is false as stated. -/
theorem success_with_empty_text_counterexample :
    ¬ (∀ o ∈ outcomesOf (transcribeAll (fun _ => true) (fun _ _ => some "") "en"
          [Segment.mk "part_000.wav"]),
        ∀ t, o = Outcome.success t → t ≠ "") := by
  intro h
  exact h (Outcome.success "") (by decide) "" rfl rfl

/-- C9 (amended): provided the recognition capability never returns empty
text on success, every per-segment outcome is either a success carrying
non-empty recognized text or a failure marker carrying that segment's name
(positionally, via the zip of segments with their outcomes). -/
theorem outcomes_shape_with_nonempty_recognizer (loadPart : Segment → Bool)
    (recog : Segment → Option String → Option String) (lang : String)
    (segs : List Segment)
    (hne : ∀ part hint t, recog part hint = some t → t ≠ "") :
    ∀ q ∈ segs.zip (outcomesOf (transcribeAll loadPart recog lang segs)),
      (∃ t, q.2 = Outcome.success t ∧ t ≠ "") ∨ q.2 = Outcome.failure q.1.name := by
  rw [transcribeAll, outcomesOf_transcribeLoop]
  induction segs with
  | nil =>
    intro q hq
    simp at hq
  | cons s ss ih =>
    intro q hq
    rw [List.map_cons, List.zip_cons_cons] at hq
    rcases List.mem_cons.mp hq with rfl | hq'
    · exact transcribeSegment_shape loadPart recog lang s (hne s)
    · exact ih q hq'

/-- Witness for C9 (amended) at a one-segment run whose recognizer returns
`"hello"`. -/
theorem outcomes_shape_with_nonempty_recognizer_witness :
    (∃ t, (Segment.mk "part_000.wav", Outcome.success "hello").2 = Outcome.success t ∧
        t ≠ "") ∨
      (Segment.mk "part_000.wav", Outcome.success "hello").2 =
        Outcome.failure (Segment.mk "part_000.wav", Outcome.success "hello").1.name := by
  refine outcomes_shape_with_nonempty_recognizer (fun _ => true) (fun _ _ => some "hello")
    "en" [Segment.mk "part_000.wav"] ?_ _ (by decide)
  intro part hint t h
  have ht : t = "hello" := (Option.some.inj h).symm
  subst ht
  decide

/-- C10: when the segmenter produces an empty list of segment files the
transcription loop performs zero iterations and the run still completes
without error — the result's trace is empty (so the per-segment percentage
division, which only occurs together with a progress entry, is never
reached), the text body is empty, and the failure list is empty. -/
theorem empty_segments_run_completes (url cookieFile pfx : String)
    (spawn : List String → SpawnResult) (tmpTemplate splitTemplate : String)
    (tmpWavs : List String) (loadSample : Bool)
    (recogSample : Option String → Option String) (identify : String → Option String)
    (loadPart : Segment → Bool) (recog : Segment → Option String → Option String)
    (segmentSeconds : Nat)
    (hurl : url ≠ "")
    (hdl : (run_cmd_capture spawn (ytDlpCmd cookieFile url tmpTemplate)).1 = 0)
    (hwav : tmpWavs ≠ [])
    (hsplit : ∀ dst,
      (run_cmd_capture spawn (ffmpegSplitCmd dst segmentSeconds splitTemplate)).1 = 0) :
    ∃ r, process_url_to_text url cookieFile pfx true true true spawn tmpTemplate
        splitTemplate tmpWavs [] loadSample recogSample identify loadPart recog
        segmentSeconds = Except.ok r ∧
      r.trace = [] ∧ r.textBody = "" ∧ r.failedParts = [] := by
  obtain ⟨s0, t0, hs⟩ := List.exists_cons_of_ne_nil
    (fun hnil => hwav ((sortStrings_eq_nil_iff tmpWavs).mp hnil))
  have hacq : acquireAudio true spawn (ytDlpCmd cookieFile url tmpTemplate) tmpWavs pfx =
      AcquireResult.acquired s0
        (if pfx ≠ "" then safe_filename pfx ++ "_" ++ safe_filename (pyStem s0)
          else safe_filename (pyStem s0)) t0 := by
    unfold acquireAudio
    simp [hdl, hs]
  have hmain : process_url_to_text url cookieFile pfx true true true spawn tmpTemplate
      splitTemplate tmpWavs [] loadSample recogSample identify loadPart recog
      segmentSeconds =
      Except.ok
        { titleBase :=
            if pfx ≠ "" then safe_filename pfx ++ "_" ++ safe_filename (pyStem s0)
            else safe_filename (pyStem s0)
          detectedLang := (detectLanguage loadSample recogSample identify).1
          textBody := ""
          failedParts := []
          trace := [] } := by
    simp [process_url_to_text, hurl, hacq, hsplit, sortStrings, transcribeAll,
      transcribeLoop, outcomesOf, finalTextOf, successTexts, failedNames]
  exact ⟨_, hmain, rfl, rfl, rfl⟩

/-- Witness for C10 at fully concrete oracles: one downloaded file, zero
split files. -/
theorem empty_segments_run_completes_witness :
    ∃ r, process_url_to_text "https://x" "" "" true true true
        (fun _ => SpawnResult.completed 0 (some "") (some "")) "T" "S" ["a.wav"] []
        true (fun _ => none) (fun _ => none) (fun _ => true) (fun _ _ => none) 300 =
        Except.ok r ∧
      r.trace = [] ∧ r.textBody = "" ∧ r.failedParts = [] := by
  exact empty_segments_run_completes "https://x" "" ""
    (fun _ => SpawnResult.completed 0 (some "") (some "")) "T" "S" ["a.wav"]
    true (fun _ => none) (fun _ => none) (fun _ => true) (fun _ _ => none) 300
    (by decide) rfl (by decide) (fun _ => rfl)

end VS
